import Mathlib

/-!
Verification development for the bach-mcp message bridge.

The definitions below are a shallow embedding of the bridge core:
`src/py/tcp.py` (outbound TCP client, inbound TCP listener) and
`src/py/bach_mcp/server.py` (message classifier, bounded inbound queue,
blocking wait loop), together with the send-and-wait composition in
`src/py/bach_mcp/mcp_app.py`.

Python strings are embedded as Lean `String`, with the handful of Python
string methods the code uses (strip, split, startswith, endswith, lower)
re-implemented structurally over the underlying character list so that
every definition evaluates inside the kernel.
-/

namespace BachMcp

/-- Python `str.strip()` whitespace set, restricted to the ASCII whitespace
characters (space, tab, newline, carriage return, vertical tab, form feed)
that can occur on this line-oriented wire protocol. -/
def isSpaceChar (c : Char) : Bool :=
  c = ' ' || c = '\t' || c = '\n' || c = '\r' || c = '\x0b' || c = '\x0c'

/-- Drop leading and trailing whitespace from a character list. -/
def stripChars (l : List Char) : List Char :=
  ((l.dropWhile isSpaceChar).reverse.dropWhile isSpaceChar).reverse

/-- Python `s.strip()`. -/
def pyStrip (s : String) : String :=
  ⟨stripChars s.data⟩

/-- Python `s.startswith(p)`. -/
def pyStartsWith (s p : String) : Bool :=
  p.data.isPrefixOf s.data

/-- Python `s.endswith(p)`. -/
def pyEndsWith (s p : String) : Bool :=
  p.data.isSuffixOf s.data

/-- Python `s.lower()` (ASCII case folding, as used on the `roll` selector). -/
def pyLower (s : String) : String :=
  ⟨s.data.map Char.toLower⟩

/-- Splitter for Python `s.split(c)` with a newline separator: accumulates the
current segment (in reverse) while scanning the character list. -/
def splitLinesAux : List Char → List Char → List String
  | [], acc => [⟨acc.reverse⟩]
  | c :: cs, acc =>
    if c = '\n' then ⟨acc.reverse⟩ :: splitLinesAux cs []
    else splitLinesAux cs (c :: acc)

/-- Python `s.split("\n")`: splits on every newline, keeping empty segments. -/
def splitNewlines (s : String) : List String :=
  splitLinesAux s.data []

/-! ## Outbound sender: `TCPSend` (src/py/tcp.py, lines 15-62)

The socket is abstracted by two oracles supplied per call: `connectOk`
tells whether a `connect()` attempt succeeds, `writeOk` whether a write on
a connected socket succeeds.  A write on a socket that is not connected
always raises in Python, hence the write only succeeds when the connection
flag is up AND the oracle allows it.  `wire` logs the successfully written
payloads. -/

/-- Connection state of `TCPSend`: the `connected` flag plus the log of
payloads successfully written to the socket. -/
structure SendState where
  connected : Bool
  wire : List String
deriving DecidableEq, Repr

/-- Model of `TCPSend.connect` (tcp.py lines 24-32): on success the flag is
set, on exception it is cleared; the method itself never raises. -/
def tcpConnect (connectOk : Bool) (s : SendState) : SendState :=
  { s with connected := connectOk }

/-- Model of `TCPSend.send` (tcp.py lines 34-52): if not connected, attempt
one reconnect; then try the newline-terminated write, which succeeds only
when actually connected and the write oracle allows it; any failure clears
the flag and returns false, success appends the payload to the wire log and
returns true. -/
def tcpSend (connectOk writeOk : Bool) (message : String) (s : SendState) :
    Bool × SendState :=
  let s1 := if s.connected then s else tcpConnect connectOk s
  if s1.connected && writeOk then
    (true, { s1 with wire := s1.wire ++ [message ++ "\n"] })
  else
    (false, { s1 with connected := false })

/-! ## Inbound listener: `TCPServer._handle_client` (src/py/tcp.py, lines 120-141)

Each accepted connection is read in chunks; every chunk is independently
stripped, split on newlines, and each non-empty stripped line is forwarded
to the handler.  The byte stream is modelled as the list of non-empty
chunks returned by successive `recv` calls before EOF. -/

/-- Inner for-loop of `_handle_client` (tcp.py lines 130-133): forward each
message of a chunk whose stripped form is non-empty, stripped, in order. -/
def emitMessages : List String → List String
  | [] => []
  | msg :: rest =>
    if pyStrip msg = "" then emitMessages rest
    else pyStrip msg :: emitMessages rest

/-- Model of `_handle_client`'s read loop: one `emitMessages` pass per
received chunk, chunks processed in arrival order.  Returns the sequence of
raw messages handed to the registered handler. -/
def handleClient : List String → List String
  | [] => []
  | chunk :: rest => emitMessages (splitNewlines (pyStrip chunk)) ++ handleClient rest

/-- Declarative per-chunk splitting: the non-empty stripped lines of one
chunk (equivalently, of the whole stream when it arrives as one chunk).
This is what the spec calls splitting the stream on newline boundaries. -/
def clientMessages (chunk : String) : List String :=
  ((splitNewlines (pyStrip chunk)).map pyStrip).filter (fun s => s != "")

/-! ## Message envelope and inbound queue (src/py/bach_mcp/server.py)

`BridgeMessage` mirrors the dataclass of server.py lines 39-54; the wall
clock value stored in `received_at` is embedded as a natural number.  The
queue state bundles the deque (front = oldest) with the availability event
flag; the lock is implicit since every claim concerns non-interleaved
operation sequences. -/

/-- Canonical message envelope (server.py lines 39-54). -/
structure BridgeMessage where
  type : String
  data : String
  raw : String
  receivedAt : Nat
deriving DecidableEq, Repr

/-- Fixed deque capacity: `deque(maxlen=500)` (server.py line 71). -/
def queueCapacity : Nat := 500

/-- Inbound queue state: ordered message buffer (front = oldest) plus the
`_incoming_event` availability flag (server.py lines 71-73). -/
structure QState where
  queue : List BridgeMessage
  event : Bool
deriving DecidableEq, Repr

/-- Initial queue state: empty deque, event unset. -/
def emptyQState : QState := ⟨[], false⟩

/-- Append under `deque(maxlen=500)` semantics and set the availability
event (server.py lines 205-207 with line 71): when the deque is full the
oldest entry is silently evicted. -/
def pushMessage (m : BridgeMessage) (st : QState) : QState :=
  { queue := (st.queue ++ [m]).drop (st.queue.length + 1 - queueCapacity)
    event := true }

/-- Scan oldest-to-newest for the first message of the requested type,
removing it and leaving every other entry in place (the enumerate-and-del
loop of server.py lines 132-139).  Returns the removed message (if any)
with the remaining queue. -/
def popFirstMatching (t : String) :
    List BridgeMessage → Option BridgeMessage × List BridgeMessage
  | [] => (none, [])
  | m :: rest =>
    if m.type = t then (some m, rest)
    else
      let p := popFirstMatching t rest
      (p.1, m :: p.2)

/-- Model of `BachMCPServer.pop_next_incoming` (server.py lines 120-140):
empty queue clears the event and yields nothing; an unfiltered pop removes
the oldest entry; a filtered pop removes the oldest entry of the requested
type; the event is cleared exactly when the queue is left empty, and a
filtered pop that finds no match leaves the state untouched. -/
def popNextIncoming (mt : Option String) (st : QState) :
    Option BridgeMessage × QState :=
  match st.queue with
  | [] => (none, ⟨[], false⟩)
  | m :: rest =>
    match mt with
    | none =>
      (some m, ⟨rest, if rest.isEmpty then false else st.event⟩)
    | some t =>
      let p := popFirstMatching t (m :: rest)
      match p.1 with
      | some sel => (some sel, ⟨p.2, if p.2.isEmpty then false else st.event⟩)
      | none => (none, st)

/-- Model of `BachMCPServer.flush_incoming` (server.py lines 179-190):
returns how many entries were discarded, empties the queue and clears the
event. -/
def flushIncoming (st : QState) : Nat × QState :=
  (st.queue.length, ⟨[], false⟩)

/-- Push a whole list of messages in order (left to right). -/
def pushAll (msgs : List BridgeMessage) (st : QState) : QState :=
  msgs.foldl (fun s m => pushMessage m s) st

/-- Perform n successive pops with the same filter, collecting the results
in order. -/
def popMany (mt : Option String) : Nat → QState → List (Option BridgeMessage) × QState
  | 0, st => ([], st)
  | n + 1, st =>
    let p := popNextIncoming mt st
    let r := popMany mt n p.2
    (p.1 :: r.1, r.2)

/-! ## Message classifier (src/py/bach_mcp/server.py, lines 210-244)

`json.loads` is a Python standard-library call, abstracted here by a
decoding oracle: for an input line it returns either the decoded object's
fields as key/value pairs (values rendered through Python `str(...)`, which
is how `_parse_incoming` consumes them), or `none` when decoding raises
`JSONDecodeError`.  The classifier itself is translated verbatim.  The
`or ""` canonicalisation of a falsy `type` value in the source cannot
change the recognised-kind test, since no `str` rendering of a falsy value
is "llll" or "info" after strip and lower. -/

/-- Heuristic `_looks_like_llll` (server.py lines 236-244): after stripping,
the line starts with an opening square bracket and ends with a closing one,
or starts (case-insensitively) with the selector "roll [" and ends with a
closing bracket. -/
def looksLikeLlll (text : String) : Bool :=
  let stripped := pyStrip text
  if pyStartsWith stripped "[" && pyEndsWith stripped "]" then true
  else if pyStartsWith (pyLower stripped) "roll [" && pyEndsWith stripped "]" then true
  else false

/-- Abstraction of `json.loads` restricted to object-shaped results: field
names paired with the Python `str(...)` rendering of their values, or
`none` on a decoding error. -/
def DecodeOracle : Type :=
  String → Option (List (String × String))

/-- Python `dict.get(key)` over the decoded fields. -/
def lookupField (fields : List (String × String)) (key : String) : Option String :=
  (fields.find? (fun p => p.1 = key)).map (fun p => p.2)

/-- The candidate type of a decoded envelope:
`str(parsed.get("type") or "").strip().lower()` (server.py line 221). -/
def candType (fields : List (String × String)) : String :=
  pyLower (pyStrip ((lookupField fields "type").getD ""))

/-- Model of `BachMCPServer._parse_incoming` (server.py lines 210-234):
classify by the bracket heuristic, then, for a brace-delimited line that
decodes to an object, let a recognised `type` field (with its `data`
payload) override the heuristic, or force a `message` field to an info
payload; a decode failure falls back to the heuristic with the raw line as
payload.  `now` embeds the `time.time()` call stamped into `received_at`. -/
def parseIncoming (decode : DecodeOracle) (now : Nat) (text : String) : BridgeMessage :=
  let messageType := if looksLikeLlll text then "llll" else "info"
  if pyStartsWith text "\x7b" && pyEndsWith text "\x7d" then
    match decode text with
    | some fields =>
      if candType fields == "llll" || candType fields == "info" then
        ⟨candType fields, (lookupField fields "data").getD "", text, now⟩
      else
        match lookupField fields "message" with
        | some v => ⟨"info", v, text, now⟩
        | none => ⟨messageType, text, text, now⟩
    | none => ⟨messageType, text, text, now⟩
  else ⟨messageType, text, text, now⟩

/-- Model of `BachMCPServer._handle_incoming_message` (server.py lines
200-208): strip the raw line, ignore it when empty, otherwise classify and
push it, setting the availability event. -/
def handleIncomingMessage (decode : DecodeOracle) (now : Nat) (raw : String)
    (st : QState) : QState :=
  if pyStrip raw = "" then st
  else pushMessage (parseIncoming decode now (pyStrip raw)) st

/-! ## Blocking wait and the send-and-wait composition

`wait_for_incoming` (server.py lines 154-172) polls `pop_next_incoming` and
blocks on the availability event in short slices until the deadline.  Wall
clock time is abstracted by the finite list `arrivals` of raw lines (with
their arrival clock values) that reach `_handle_incoming_message` before
the deadline expires, in arrival order: each loop iteration pops, and when
the pop yields nothing the next arrival (if any) is enqueued before the
loop polls again; once arrivals are exhausted the deadline has passed and
the call gives up.  Extra empty polls between arrivals leave the state
unchanged (an unfiltered pop only misses on an empty queue, and a filtered
miss touches nothing), so folding them away loses no behaviour. -/

/-- Polling loop of `BachMCPServer.wait_for_incoming`: pop, return on a hit,
otherwise ingest the next arrival and retry; timeout (exhausted arrivals)
yields `none`. -/
def waitForIncoming (decode : DecodeOracle) (mt : Option String) :
    QState → List (String × Nat) → Option BridgeMessage × QState
  | st, [] => popNextIncoming mt st
  | st, a :: rest =>
    let p := popNextIncoming mt st
    if p.1.isSome then p
    else waitForIncoming decode mt (handleIncomingMessage decode a.2 a.1 p.2) rest

/-- The classified message an arrival contributes to the queue, if any: an
all-whitespace line is dropped by `_handle_incoming_message`. -/
def parseArrival (decode : DecodeOracle) (a : String × Nat) : Option BridgeMessage :=
  if pyStrip a.1 = "" then none
  else some (parseIncoming decode a.2 (pyStrip a.1))

/-- Kind filter of a pop or wait: no filter accepts anything, a filter
accepts messages of exactly that type. -/
def matchesFilter (mt : Option String) (m : BridgeMessage) : Bool :=
  match mt with
  | none => true
  | some t => m.type == t

/-- The send-and-wait operation: `bach.send_info(command)` followed by
`bach.wait_for_incoming(...)`, as composed in `_request_max_and_wait`
(mcp_app.py lines 28-37): send the command over the outbound connection;
on send failure give up immediately with `none` and an untouched queue; on
success run the blocking wait.  Returns the wait result together with the
final sender and queue states. -/
def sendInfoThenWait (connectOk writeOk : Bool) (command : String)
    (ss : SendState) (decode : DecodeOracle) (mt : Option String)
    (st : QState) (arrivals : List (String × Nat)) :
    Option BridgeMessage × SendState × QState :=
  let r := tcpSend connectOk writeOk command ss
  if r.1 then
    let w := waitForIncoming decode mt st arrivals
    (w.1, r.2, w.2)
  else (none, r.2, st)

/-- The availability-event invariant the queue maintains between operations:
the event flag is set exactly when the queue is non-empty. -/
def eventInv (st : QState) : Prop :=
  st.event = true ↔ st.queue ≠ []

/-! ## Helper lemmas -/

/-- The scan-and-delete loop returns the first matching entry and erases
exactly that entry. -/
theorem popFirstMatching_eq (t : String) (l : List BridgeMessage) :
    popFirstMatching t l =
      (l.find? (fun m => m.type == t), l.eraseP (fun m => m.type == t)) := by
  induction l with
  | nil => rfl
  | cons m rest ih =>
    by_cases h : m.type = t
    · simp [popFirstMatching, h, List.find?_cons, List.eraseP_cons]
    · simp [popFirstMatching, h, ih, List.find?_cons, List.eraseP_cons]

/-- Unfiltered matching accepts every message. -/
theorem matchesFilter_none : matchesFilter none = fun _ => true := rfl

/-- Filtered matching compares the message type with the filter. -/
theorem matchesFilter_some (t : String) :
    matchesFilter (some t) = fun m => m.type == t := rfl

/-- A pop returns the oldest entry matching the filter (if any). -/
theorem popNextIncoming_fst (mt : Option String) (st : QState) :
    (popNextIncoming mt st).1 = st.queue.find? (matchesFilter mt) := by
  obtain ⟨q, e⟩ := st
  cases q with
  | nil => cases mt <;> rfl
  | cons m rest =>
    cases mt with
    | none => rfl
    | some t =>
      simp only [popNextIncoming, popFirstMatching_eq, matchesFilter_some]
      cases hf : (m :: rest).find? (fun m => m.type == t) <;> simp [hf]

/-- A pop that yields nothing leaves the queue contents unchanged. -/
theorem popNextIncoming_queue_of_none (mt : Option String) (st : QState)
    (h : (popNextIncoming mt st).1 = none) :
    (popNextIncoming mt st).2.queue = st.queue := by
  obtain ⟨q, e⟩ := st
  cases q with
  | nil => cases mt <;> rfl
  | cons m rest =>
    cases mt with
    | none => simp [popNextIncoming] at h
    | some t =>
      simp only [popNextIncoming, popFirstMatching_eq] at h ⊢
      cases hf : (m :: rest).find? (fun m => m.type == t) <;> simp [hf] at h ⊢

/-- A filtered pop erases exactly the oldest matching entry. -/
theorem popNextIncoming_queue_filtered (t : String) (st : QState) :
    (popNextIncoming (some t) st).2.queue =
      st.queue.eraseP (fun m => m.type == t) := by
  obtain ⟨q, e⟩ := st
  cases q with
  | nil => rfl
  | cons m rest =>
    simp only [popNextIncoming, popFirstMatching_eq]
    cases hf : (m :: rest).find? (fun m => m.type == t) with
    | some sel => simp [hf]
    | none =>
      have hall := List.find?_eq_none.mp hf
      simp [hf, List.eraseP_of_forall_not hall]

/-- Appending under the capacity bound keeps the tail of the combined list:
the deque drops exactly as many oldest entries as the capacity forces. -/
theorem pushAll_queue (msgs : List BridgeMessage) :
    ∀ st : QState, st.queue.length ≤ queueCapacity →
      (pushAll msgs st).queue =
        (st.queue ++ msgs).drop (st.queue.length + msgs.length - queueCapacity) := by
  induction msgs with
  | nil =>
    intro st h
    simp only [pushAll, List.foldl_nil, List.append_nil, List.length_nil, Nat.add_zero]
    rw [Nat.sub_eq_zero_of_le h, List.drop_zero]
  | cons m rest ih =>
    intro st h
    simp only [queueCapacity] at h
    have hstep : pushAll (m :: rest) st = pushAll rest (pushMessage m st) := by
      simp only [pushAll, List.foldl_cons]
    have hk : st.queue.length + 1 - queueCapacity ≤ (st.queue ++ [m]).length := by
      simp only [queueCapacity, List.length_append, List.length_cons, List.length_nil]
      omega
    have hlen : (pushMessage m st).queue.length ≤ queueCapacity := by
      simp only [pushMessage, queueCapacity, List.length_drop, List.length_append,
        List.length_cons, List.length_nil]
      omega
    rw [hstep, ih (pushMessage m st) hlen]
    have hq1 : (pushMessage m st).queue =
        (st.queue ++ [m]).drop (st.queue.length + 1 - queueCapacity) := by
      simp only [pushMessage]
    rw [hq1, ← List.drop_append_of_le_length hk, List.drop_drop]
    have harr : (st.queue ++ [m]) ++ rest = st.queue ++ m :: rest := by
      simp
    rw [harr]
    have hidx : st.queue.length + 1 - queueCapacity +
        ((List.drop (st.queue.length + 1 - queueCapacity) (st.queue ++ [m])).length +
          rest.length - queueCapacity) =
        st.queue.length + (m :: rest).length - queueCapacity := by
      simp only [queueCapacity, List.length_drop, List.length_append, List.length_cons,
        List.length_nil]
      omega
    rw [hidx]

/-- The wait loop returns the oldest message, among the initial queue
followed by the classified arrivals, that matches the filter; it returns
nothing exactly when no such message exists (the timeout case). -/
theorem waitForIncoming_fst (d : DecodeOracle) (mt : Option String) :
    ∀ (arr : List (String × Nat)) (st : QState),
      (waitForIncoming d mt st arr).1 =
        (st.queue ++ arr.filterMap (parseArrival d)).find? (matchesFilter mt) := by
  intro arr
  induction arr with
  | nil =>
    intro st
    simp [waitForIncoming, popNextIncoming_fst]
  | cons a rest ih =>
    intro st
    cases hp : (popNextIncoming mt st).1 with
    | some m =>
      have hfind : st.queue.find? (matchesFilter mt) = some m := by
        rw [← popNextIncoming_fst, hp]
      simp [waitForIncoming, hp, List.find?_append, hfind]
    | none =>
      have hfind : st.queue.find? (matchesFilter mt) = none := by
        rw [← popNextIncoming_fst, hp]
      have hq2 : (popNextIncoming mt st).2.queue = st.queue :=
        popNextIncoming_queue_of_none mt st hp
      have hstep : (waitForIncoming d mt st (a :: rest)).1 =
          (waitForIncoming d mt
            (handleIncomingMessage d a.2 a.1 (popNextIncoming mt st).2) rest).1 := by
        simp [waitForIncoming, hp]
      rw [hstep, ih]
      by_cases hblank : pyStrip a.1 = ""
      · have hqh : (handleIncomingMessage d a.2 a.1 (popNextIncoming mt st).2).queue =
            st.queue := by
          simp [handleIncomingMessage, hblank, hq2]
        have hpar : parseArrival d a = none := by
          simp [parseArrival, hblank]
        simp [hqh, hpar]
      · have hqh : (handleIncomingMessage d a.2 a.1 (popNextIncoming mt st).2).queue =
            (st.queue ++ [parseIncoming d a.2 (pyStrip a.1)]).drop
              (st.queue.length + 1 - queueCapacity) := by
          simp [handleIncomingMessage, hblank, pushMessage, hq2]
        have hpar : parseArrival d a = some (parseIncoming d a.2 (pyStrip a.1)) := by
          simp [parseArrival, hblank]
        have hk : st.queue.length + 1 - queueCapacity ≤ st.queue.length := by
          simp only [queueCapacity]
          omega
        have hdropnone :
            (st.queue.drop (st.queue.length + 1 - queueCapacity)).find?
              (matchesFilter mt) = none := by
          refine List.find?_eq_none.mpr (fun x hx => ?_)
          exact List.find?_eq_none.mp hfind x (List.mem_of_mem_drop hx)
        rw [hqh]
        rw [List.drop_append_of_le_length hk]
        cases hm : matchesFilter mt (parseIncoming d a.2 (pyStrip a.1)) <;>
          simp [hpar, List.find?_append, hdropnone, hfind, List.find?_cons, hm]

/-- Draining a queue with unfiltered pops returns its contents in order. -/
theorem popMany_drain_aux :
    ∀ (q : List BridgeMessage) (e : Bool),
      (popMany none q.length ⟨q, e⟩).1 = q.map some := by
  intro q
  induction q with
  | nil => intro e; rfl
  | cons m rest ih =>
    intro e
    simp only [List.length_cons, popMany, popNextIncoming, List.map_cons]
    exact congrArg (some m :: ·) (ih _)

/-- Draining any queue state with unfiltered pops returns its contents. -/
theorem popMany_drain (st : QState) :
    (popMany none st.queue.length st).1 = st.queue.map some := by
  obtain ⟨q, e⟩ := st
  exact popMany_drain_aux q e

/-- The inner listener loop emits exactly the non-empty stripped lines. -/
theorem emitMessages_eq (l : List String) :
    emitMessages l = (l.map pyStrip).filter (fun s => s != "") := by
  induction l with
  | nil => rfl
  | cons msg rest ih =>
    by_cases h : pyStrip msg = ""
    · simp [emitMessages, h, ih]
    · simp [emitMessages, h, ih]

/-- A push always leaves the event set with a non-empty queue. -/
theorem eventInv_push (m : BridgeMessage) (st : QState) :
    eventInv (pushMessage m st) := by
  simp only [eventInv, pushMessage]
  constructor
  · intro _ hnil
    rw [List.drop_eq_nil_iff] at hnil
    simp only [queueCapacity, List.length_append, List.length_cons,
      List.length_nil] at hnil
    omega
  · intro _
    trivial

/-- A filtered pop that finds no match on a non-empty queue is a no-op. -/
theorem popNextIncoming_no_match (t : String) (st : QState)
    (hne : st.queue ≠ [])
    (hfind : st.queue.find? (fun m => m.type == t) = none) :
    popNextIncoming (some t) st = (none, st) := by
  obtain ⟨q, e⟩ := st
  cases q with
  | nil => exact absurd rfl hne
  | cons m rest =>
    simp only [popNextIncoming, popFirstMatching_eq]
    simp only at hfind
    simp [hfind]

/-- Any pop preserves the availability-event invariant. -/
theorem eventInv_pop (mt : Option String) (st : QState) (h : eventInv st) :
    eventInv (popNextIncoming mt st).2 := by
  obtain ⟨q, e⟩ := st
  cases q with
  | nil => simp [popNextIncoming, eventInv]
  | cons m rest =>
    have he : e = true := h.mpr (by simp)
    subst he
    cases mt with
    | none =>
      simp only [popNextIncoming, eventInv]
      cases hre : rest.isEmpty <;> simp_all [List.isEmpty_iff]
    | some t =>
      simp only [popNextIncoming, popFirstMatching_eq]
      cases hf : (m :: rest).find? (fun x => x.type == t) with
      | some sel =>
        simp only [eventInv]
        cases hre : ((m :: rest).eraseP (fun x => x.type == t)).isEmpty with
        | true =>
          have hnil := List.isEmpty_eq_true.mp hre
          simp [hre, hnil]
        | false =>
          have hne := List.isEmpty_eq_false.mp hre
          simp [hre, hne]
      | none =>
        exact h

/-! ## Claim theorems -/

/-- C2.  Pushing at most `queueCapacity` messages into the empty inbound
queue and then performing that many unfiltered pops, with no interleaved
operations, returns exactly the pushed messages in push order: queue order
is strictly FIFO arrival order, with no reordering or priority. -/
theorem fifo_push_pop (msgs : List BridgeMessage)
    (h : msgs.length ≤ queueCapacity) :
    (popMany none msgs.length (pushAll msgs emptyQState)).1 = msgs.map some := by
  have hq : (pushAll msgs emptyQState).queue = msgs := by
    rw [pushAll_queue msgs emptyQState (by simp [emptyQState, queueCapacity])]
    simp only [emptyQState, List.length_nil, List.nil_append, Nat.zero_add]
    rw [Nat.sub_eq_zero_of_le h, List.drop_zero]
  set s := pushAll msgs emptyQState with hs
  rw [← hq]
  exact popMany_drain s

/-- C2 witness: three concrete messages pushed and drained in order. -/
theorem fifo_push_pop_witness :
    ([(⟨"info", "a", "a", 0⟩ : BridgeMessage), ⟨"llll", "b", "b", 1⟩,
        ⟨"info", "c", "c", 2⟩].length ≤ queueCapacity) ∧
    (popMany none
        [(⟨"info", "a", "a", 0⟩ : BridgeMessage), ⟨"llll", "b", "b", 1⟩,
          ⟨"info", "c", "c", 2⟩].length
        (pushAll
          [(⟨"info", "a", "a", 0⟩ : BridgeMessage), ⟨"llll", "b", "b", 1⟩,
            ⟨"info", "c", "c", 2⟩] emptyQState)).1 =
      [(⟨"info", "a", "a", 0⟩ : BridgeMessage), ⟨"llll", "b", "b", 1⟩,
        ⟨"info", "c", "c", 2⟩].map some :=
  ⟨by decide, fifo_push_pop _ (by decide)⟩

/-- C3.  A filtered pop scans oldest-to-newest, removes and returns the
first entry whose type matches, leaves all other entries in their original
relative order, and returns nothing when no entry matches; in particular,
after pushing A (kind llll), B (kind info), C (kind llll), two pops
filtered on llll yield A then C, and a subsequent unfiltered pop yields
B. -/
theorem filtered_pop_spec :
    (∀ (t : String) (st : QState),
        (popNextIncoming (some t) st).1 =
          st.queue.find? (fun m => m.type == t) ∧
        (popNextIncoming (some t) st).2.queue =
          st.queue.eraseP (fun m => m.type == t)) ∧
    ((popNextIncoming (some "llll")
        (pushAll
          [(⟨"llll", "A", "A", 0⟩ : BridgeMessage), ⟨"info", "B", "B", 1⟩,
            ⟨"llll", "C", "C", 2⟩] emptyQState)).1 =
      some ⟨"llll", "A", "A", 0⟩) ∧
    ((popNextIncoming (some "llll")
        (popNextIncoming (some "llll")
          (pushAll
            [(⟨"llll", "A", "A", 0⟩ : BridgeMessage), ⟨"info", "B", "B", 1⟩,
              ⟨"llll", "C", "C", 2⟩] emptyQState)).2).1 =
      some ⟨"llll", "C", "C", 2⟩) ∧
    ((popNextIncoming none
        (popNextIncoming (some "llll")
          (popNextIncoming (some "llll")
            (pushAll
              [(⟨"llll", "A", "A", 0⟩ : BridgeMessage), ⟨"info", "B", "B", 1⟩,
                ⟨"llll", "C", "C", 2⟩] emptyQState)).2).2).1 =
      some ⟨"info", "B", "B", 1⟩) := by
  refine ⟨fun t st => ⟨?_, ?_⟩, by decide, by decide, by decide⟩
  · rw [popNextIncoming_fst, matchesFilter_some]
  · exact popNextIncoming_queue_filtered t st

/-- C4.  The inbound queue is bounded by the fixed capacity 500; pushing
capacity+1 messages into the empty queue silently evicts the oldest entry,
so the resulting queue holds everything but the first message, and a single
unfiltered pop returns the second-pushed message. -/
theorem bounded_eviction (msgs : List BridgeMessage)
    (h : msgs.length = queueCapacity + 1) :
    queueCapacity = 500 ∧
    (pushAll msgs emptyQState).queue = msgs.drop 1 ∧
    (popNextIncoming none (pushAll msgs emptyQState)).1 = msgs[1]? := by
  have hq : (pushAll msgs emptyQState).queue = msgs.drop 1 := by
    rw [pushAll_queue msgs emptyQState (by simp [emptyQState, queueCapacity])]
    simp only [emptyQState, List.length_nil, List.nil_append, Nat.zero_add]
    rw [h, Nat.add_sub_cancel_left]
  refine ⟨rfl, hq, ?_⟩
  rw [popNextIncoming_fst, hq, matchesFilter_none]
  have hne : msgs.drop 1 ≠ [] := by
    intro hnil
    rw [List.drop_eq_nil_iff] at hnil
    simp only [queueCapacity] at h
    omega
  cases hd : msgs.drop 1 with
  | nil => exact absurd hd hne
  | cons m2 r =>
    have h2 : msgs[1]? = some m2 := by
      rw [← List.head?_drop, hd]
      rfl
    rw [h2]
    rfl

/-- C4 witness: 501 distinct messages, the pop returns the second one. -/
theorem bounded_eviction_witness :
    ((List.range (queueCapacity + 1)).map
        (fun i => (⟨"info", "", "", i⟩ : BridgeMessage))).length =
      queueCapacity + 1 ∧
    (queueCapacity = 500 ∧
      (pushAll
          ((List.range (queueCapacity + 1)).map
            (fun i => (⟨"info", "", "", i⟩ : BridgeMessage)))
          emptyQState).queue =
        ((List.range (queueCapacity + 1)).map
          (fun i => (⟨"info", "", "", i⟩ : BridgeMessage))).drop 1 ∧
      (popNextIncoming none
          (pushAll
            ((List.range (queueCapacity + 1)).map
              (fun i => (⟨"info", "", "", i⟩ : BridgeMessage)))
            emptyQState)).1 =
        ((List.range (queueCapacity + 1)).map
          (fun i => (⟨"info", "", "", i⟩ : BridgeMessage)))[1]?) :=
  ⟨by simp, bounded_eviction _ (by simp)⟩

/-- C5.  The outbound send: from a disconnected state it attempts exactly
one reconnect and returns false (without raising) whenever the send cannot
be completed; a write failure clears the connection flag and returns false;
a successful send appends the newline terminator to the payload, writes it,
and returns true; and after any failure the connection flag is down, so the
next send goes through a fresh connect attempt before writing (the
disconnected-state equation).  The final conjunct states that the flag
after a send equals the send's result, so every failure leaves the sender
disconnected. -/
theorem tcp_send_spec :
    (∀ (cOk wOk : Bool) (m : String) (w : List String),
        tcpSend cOk wOk m ⟨false, w⟩ =
          if cOk && wOk then (true, ⟨true, w ++ [m ++ "\n"]⟩)
          else (false, ⟨false, w⟩)) ∧
    (∀ (cOk : Bool) (m : String) (w : List String),
        tcpSend cOk false m ⟨true, w⟩ = (false, ⟨false, w⟩)) ∧
    (∀ (cOk : Bool) (m : String) (w : List String),
        tcpSend cOk true m ⟨true, w⟩ = (true, ⟨true, w ++ [m ++ "\n"]⟩)) ∧
    (∀ (cOk wOk : Bool) (m : String) (s : SendState),
        (tcpSend cOk wOk m s).2.connected = (tcpSend cOk wOk m s).1) := by
  refine ⟨?_, ?_, ?_, ?_⟩
  · intro cOk wOk m w
    cases cOk <;> cases wOk <;> simp [tcpSend, tcpConnect]
  · intro cOk m w
    simp [tcpSend]
  · intro cOk m w
    simp [tcpSend]
  · intro cOk wOk m s
    obtain ⟨c, w⟩ := s
    cases c <;> cases cOk <;> cases wOk <;> simp [tcpSend, tcpConnect]

/-- C10.  From any state satisfying the availability invariant (the event
flag is set iff the queue is non-empty — which holds initially), every
single queue operation executed without interleaving re-establishes it; in
particular a filtered pop that finds no matching entry on a non-empty queue
leaves the signal set, and a filtered pop that removes an entry while
others remain leaves the signal set. -/
theorem availability_invariant (st : QState) (h : eventInv st) :
    eventInv emptyQState ∧
    (∀ m, eventInv (pushMessage m st)) ∧
    (∀ mt, eventInv (popNextIncoming mt st).2) ∧
    eventInv (flushIncoming st).2 ∧
    (∀ t, st.queue ≠ [] →
        st.queue.find? (fun m => m.type == t) = none →
        (popNextIncoming (some t) st).2.event = true) ∧
    (∀ t, (popNextIncoming (some t) st).2.queue ≠ [] →
        (popNextIncoming (some t) st).2.event = true) := by
  refine ⟨by simp [eventInv, emptyQState], fun m => eventInv_push m st,
    fun mt => eventInv_pop mt st h, by simp [eventInv, flushIncoming],
    fun t hne hfind => ?_, fun t hne => ?_⟩
  · rw [popNextIncoming_no_match t st hne hfind]
    exact h.mpr hne
  · exact (eventInv_pop (some t) st h).mpr hne

/-- C10 witness: the invariant holds at the initial state, and the claim
follows there. -/
theorem availability_invariant_witness :
    eventInv emptyQState ∧
    (eventInv emptyQState ∧
      (∀ m, eventInv (pushMessage m emptyQState)) ∧
      (∀ mt, eventInv (popNextIncoming mt emptyQState).2) ∧
      eventInv (flushIncoming emptyQState).2 ∧
      (∀ t, emptyQState.queue ≠ [] →
          emptyQState.queue.find? (fun m => m.type == t) = none →
          (popNextIncoming (some t) emptyQState).2.event = true) ∧
      (∀ t, (popNextIncoming (some t) emptyQState).2.queue ≠ [] →
          (popNextIncoming (some t) emptyQState).2.event = true)) :=
  ⟨by simp [eventInv, emptyQState],
    availability_invariant emptyQState (by simp [eventInv, emptyQState])⟩

/-- C1.  The send-and-wait operation (send_info followed by
wait_for_incoming, as composed in the request helper): the command is sent
first; a failed send yields the absent result immediately with the queue
untouched and no arrival consumed (second and third conjuncts cover
exactly the two failure modes: reconnect refused from a disconnected
state, and write failure); a successful send returns the oldest message,
among the queued ones followed by those arriving before the timeout, that
matches the kind filter (any message when the filter is unset), and yields
the absent result exactly when no such message exists before the timeout
(first conjunct); and the absent result is distinguishable from a reply
carrying an empty payload, since a reply is always a present message
(fourth conjunct). -/
theorem send_and_wait_spec :
    (∀ (cOk wOk : Bool) (cmd : String) (ss : SendState) (d : DecodeOracle)
        (mt : Option String) (st : QState) (arr : List (String × Nat)),
        (sendInfoThenWait cOk wOk cmd ss d mt st arr).1 =
          if (tcpSend cOk wOk cmd ss).1 then
            (st.queue ++ arr.filterMap (parseArrival d)).find? (matchesFilter mt)
          else none) ∧
    (∀ (wOk : Bool) (cmd : String) (w : List String) (d : DecodeOracle)
        (mt : Option String) (st : QState) (arr : List (String × Nat)),
        sendInfoThenWait false wOk cmd ⟨false, w⟩ d mt st arr =
          (none, ⟨false, w⟩, st)) ∧
    (∀ (cOk : Bool) (cmd : String) (ss : SendState) (d : DecodeOracle)
        (mt : Option String) (st : QState) (arr : List (String × Nat)),
        sendInfoThenWait cOk false cmd ss d mt st arr =
          (none, ⟨false, ss.wire⟩, st)) ∧
    (∀ m : BridgeMessage, (some m : Option BridgeMessage) ≠ none) := by
  refine ⟨?_, ?_, ?_, fun m => by simp⟩
  · intro cOk wOk cmd ss d mt st arr
    cases hsend : (tcpSend cOk wOk cmd ss).1 with
    | true => simp [sendInfoThenWait, hsend, waitForIncoming_fst]
    | false => simp [sendInfoThenWait, hsend]
  · intro wOk cmd w d mt st arr
    simp [sendInfoThenWait, tcpSend, tcpConnect]
  · intro cOk cmd ss d mt st arr
    obtain ⟨c, w⟩ := ss
    cases c <;> simp [sendInfoThenWait, tcpSend, tcpConnect]

/-- C6 counterexample.  The stream "hello\n" delivered in two socket reads
as "hel" then "lo\n" is forwarded as the two fragments "hel" and "lo", not
as the single intact line "hello" that splitting the whole stream on
newline boundaries would give: the reader keeps no carry-over buffer
between reads. -/
theorem listener_split_counterexample :
    handleClient ["hel", "lo\n"] = ["hel", "lo"] ∧
    clientMessages ("hel" ++ "lo\n") = ["hello"] ∧
    handleClient ["hel", "lo\n"] ≠ clientMessages ("hel" ++ "lo\n") := by
  refine ⟨by decide, by decide, by decide⟩

/-- C6 amended.  The listener splits each received chunk (not the whole
stream) on newline boundaries: every non-empty stripped line of every
chunk is passed exactly once, intact, and in order to the single handler,
with one chunk fully processed before the next; a line whose bytes arrive
split across successive reads is passed as separate fragments rather than
reassembled. -/
theorem listener_split_per_chunk (chunks : List String) :
    handleClient chunks = (chunks.map clientMessages).flatten := by
  induction chunks with
  | nil => rfl
  | cons chunk rest ih =>
    simp only [handleClient, List.map_cons, List.flatten_cons, ih,
      clientMessages, emitMessages_eq]

/-- C9 counterexample.  Two invocations of the classifier on the same
input line do not return the same classified message: the wall-clock stamp
recorded in the received_at field differs between invocations. -/
theorem classifier_not_pure :
    parseIncoming (fun _ => none) 0 "play" ≠
      parseIncoming (fun _ => none) 1 "play" := by
  decide

/-- C9 amended.  The classifier is deterministic in its input line (and in
the decoder's verdict on it): repeated invocations yield classified
messages identical in type, payload and raw line; only the received_at
timestamp depends on the invocation time. -/
theorem classifier_deterministic (d : DecodeOracle) (t1 t2 : Nat)
    (text : String) :
    (parseIncoming d t1 text).type = (parseIncoming d t2 text).type ∧
    (parseIncoming d t1 text).data = (parseIncoming d t2 text).data ∧
    (parseIncoming d t1 text).raw = (parseIncoming d t2 text).raw := by
  refine ⟨?_, ?_, ?_⟩ <;> unfold parseIncoming <;> (repeat' split) <;> simp_all

/-- C7.  The classifier tags a line Structured (type llll) exactly when,
after stripping, it begins with an opening bracket and ends with a closing
bracket, or begins (case-insensitively) with the list selector "roll"
followed by an opening bracket and ends with a closing bracket, and tags
it Plain (type info) otherwise; a non-envelope structured line keeps the
original line as its payload, and a plain word classifies as info. -/
theorem classifier_heuristic :
    (∀ text : String,
        looksLikeLlll text =
          ((pyStartsWith (pyStrip text) "[" && pyEndsWith (pyStrip text) "]") ||
            (pyStartsWith (pyLower (pyStrip text)) "roll [" &&
              pyEndsWith (pyStrip text) "]"))) ∧
    (∀ (d : DecodeOracle) (now : Nat),
        parseIncoming d now "[1000. [6000. 500. 100 0] 0]" =
          ⟨"llll", "[1000. [6000. 500. 100 0] 0]",
            "[1000. [6000. 500. 100 0] 0]", now⟩) ∧
    (∀ (d : DecodeOracle) (now : Nat),
        parseIncoming d now "play" = ⟨"info", "play", "play", now⟩) := by
  refine ⟨?_, ?_, ?_⟩
  · intro text
    simp only [looksLikeLlll]
    cases h1 : pyStartsWith (pyStrip text) "[" && pyEndsWith (pyStrip text) "]" <;>
      cases h2 : pyStartsWith (pyLower (pyStrip text)) "roll [" &&
          pyEndsWith (pyStrip text) "]" <;>
      simp [h1, h2]
  · intro d now
    have hb : (pyStartsWith "[1000. [6000. 500. 100 0] 0]" "\x7b" &&
        pyEndsWith "[1000. [6000. 500. 100 0] 0]" "\x7d") = false := by decide
    have hl : looksLikeLlll "[1000. [6000. 500. 100 0] 0]" = true := by decide
    simp [parseIncoming, hb, hl]
  · intro d now
    have hb : (pyStartsWith "play" "\x7b" && pyEndsWith "play" "\x7d") = false := by
      decide
    have hl : looksLikeLlll "play" = false := by decide
    simp [parseIncoming, hb, hl]

/-- C8.  For an envelope-shaped line (opening and closing curly braces):
if decoding yields an object whose type field strips and lowers to one of
the two recognised kinds, that kind and the paired data field become the
message type and payload, overriding the bracket heuristic; otherwise a
present message field forces kind info with that field as payload, and an
absent one falls back to the heuristic; a decoding failure falls back to
the bracket heuristic with the raw line as payload.  The final conjunct:
the raw line is always retained, never dropped (and the classifier is a
total function, so no exception escapes). -/
theorem envelope_override (d : DecodeOracle) (now : Nat) (text : String)
    (hshape : (pyStartsWith text "\x7b" && pyEndsWith text "\x7d") = true) :
    (∀ fields, d text = some fields →
        ((candType fields = "llll" ∨ candType fields = "info") →
            parseIncoming d now text =
              ⟨candType fields, (lookupField fields "data").getD "", text, now⟩) ∧
        (candType fields ≠ "llll" → candType fields ≠ "info" →
            ∀ v, lookupField fields "message" = some v →
              parseIncoming d now text = ⟨"info", v, text, now⟩) ∧
        (candType fields ≠ "llll" → candType fields ≠ "info" →
            lookupField fields "message" = none →
            parseIncoming d now text =
              ⟨if looksLikeLlll text then "llll" else "info", text, text, now⟩)) ∧
    (d text = none →
        parseIncoming d now text =
          ⟨if looksLikeLlll text then "llll" else "info", text, text, now⟩) ∧
    (parseIncoming d now text).raw = text := by
  refine ⟨fun fields hdec => ⟨?_, ?_, ?_⟩, fun hdec => ?_, ?_⟩
  · intro hct
    have hctb : (candType fields == "llll" || candType fields == "info") = true := by
      rcases hct with h | h <;> simp [h]
    simp [parseIncoming, hshape, hdec, hctb]
  · intro h1 h2 v hv
    have hctb : (candType fields == "llll" || candType fields == "info") = false := by
      simp [h1, h2]
    simp [parseIncoming, hshape, hdec, hctb, hv]
  · intro h1 h2 hv
    have hctb : (candType fields == "llll" || candType fields == "info") = false := by
      simp [h1, h2]
    simp [parseIncoming, hshape, hdec, hctb, hv]
  · simp [parseIncoming, hshape, hdec]
  · unfold parseIncoming
    (repeat' split) <;> rfl

/-- C8 witness: a concrete envelope-shaped line with a decoder that yields
a type field stripping and lowering to the recognised kind llll. -/
theorem envelope_override_witness :
    ((pyStartsWith "\x7bq\x7d" "\x7b" && pyEndsWith "\x7bq\x7d" "\x7d") = true) ∧
    ((∀ fields,
        (fun _ => some [("type", " LLLL "), ("data", "payload")] :
          DecodeOracle) "\x7bq\x7d" = some fields →
        ((candType fields = "llll" ∨ candType fields = "info") →
            parseIncoming
              (fun _ => some [("type", " LLLL "), ("data", "payload")]) 0
              "\x7bq\x7d" =
              ⟨candType fields, (lookupField fields "data").getD "",
                "\x7bq\x7d", 0⟩) ∧
        (candType fields ≠ "llll" → candType fields ≠ "info" →
            ∀ v, lookupField fields "message" = some v →
              parseIncoming
                (fun _ => some [("type", " LLLL "), ("data", "payload")]) 0
                "\x7bq\x7d" = ⟨"info", v, "\x7bq\x7d", 0⟩) ∧
        (candType fields ≠ "llll" → candType fields ≠ "info" →
            lookupField fields "message" = none →
            parseIncoming
              (fun _ => some [("type", " LLLL "), ("data", "payload")]) 0
              "\x7bq\x7d" =
              ⟨if looksLikeLlll "\x7bq\x7d" then "llll" else "info",
                "\x7bq\x7d", "\x7bq\x7d", 0⟩)) ∧
      ((fun _ => some [("type", " LLLL "), ("data", "payload")] :
          DecodeOracle) "\x7bq\x7d" = none →
        parseIncoming
          (fun _ => some [("type", " LLLL "), ("data", "payload")]) 0
          "\x7bq\x7d" =
          ⟨if looksLikeLlll "\x7bq\x7d" then "llll" else "info",
            "\x7bq\x7d", "\x7bq\x7d", 0⟩) ∧
      (parseIncoming
          (fun _ => some [("type", " LLLL "), ("data", "payload")]) 0
          "\x7bq\x7d").raw = "\x7bq\x7d") :=
  ⟨by decide,
    envelope_override (fun _ => some [("type", " LLLL "), ("data", "payload")])
      0 "\x7bq\x7d" (by decide)⟩

end BachMcp
